import Mathlib

/-!
Verification of the database reconstruction attack pipeline
(`attacks/reconstruction/reconstruction.ipynb`).

The notebook drives a module `reconstruction_module` (not present in the
repository sources) that enumerates subgroups, releases statistics, encodes
them as Z3 constraints ("applications"), solves, and scores the
reconstruction.  The constraint language, the encoder, the solver adapter
and the scorer are modelled here; the notebook's own cells (the concrete
`z3.solve` example, the background-knowledge constraints, the deduplication
by `list(set(...))`) are embedded directly.
-/

/-- An assignment of integer values to solver variables, identified by name
(as Z3 identifies `z3.Int(name)` variables by their name string). -/
def Assignment : Type := String → Int

/-- The constraint language of the applications built by the encoder and the
notebook cells: orderings `x <= y`, pinned values `x == v`, the even-median
pair constraint `x + y == v`, the mean sum constraint `sum xs == v`, and the
background-knowledge disjunction `Or(x == v for x in xs)`. -/
inductive App where
  | le (x y : String)
  | eqVar (x : String) (v : Int)
  | eqPair (x y : String) (v : Int)
  | eqSum (xs : List String) (v : Int)
  | orEq (xs : List String) (v : Int)
deriving DecidableEq

/-- Truth value of one application under an assignment. -/
def App.eval (a : Assignment) : App → Bool
  | le x y => decide (a x ≤ a y)
  | eqVar x v => a x == v
  | eqPair x y v => a x + a y == v
  | eqSum xs v => (xs.map a).sum == v
  | orEq xs v => xs.any (fun x => a x == v)

/-- An assignment satisfies a constraint store when every application in it
evaluates to true. -/
def holdsAll (a : Assignment) (s : List App) : Bool :=
  s.all (App.eval a)

/-- A constraint store is satisfiable when some assignment satisfies it. -/
def Satisfiable (s : List App) : Prop :=
  ∃ a : Assignment, holdsAll a s = true

/-- Whether an application is one of the monotonic-ordering constraints
(`x_i <= x_{i+1}`) rather than a statistic-derived constraint. -/
def App.isOrdering : App → Bool
  | le _ _ => true
  | _ => false

/-- Modelled from the spec: the canonical variable name
`"<subgroup-key>_<local-index>"` used by `create_elem_dicts` of the missing
`reconstruction_module` (the notebook reconstructs it as
`'{0}_{1}'.format(group_def, i)`). -/
def varName (key : String) (i : Nat) : String :=
  key ++ "_" ++ toString i

/-- The variable name the notebook's background-knowledge cell constructs
with `z3.Int('{0}_{1}'.format(group_def, i))`. -/
def backgroundVar (group_def : String) (i : Nat) : String :=
  group_def ++ "_" ++ toString i

/-- Modelled from the spec: the released statistics of one subgroup as
consumed by `get_applications` of the missing `reconstruction_module`
(`mean_income_dict`, `median_income_dict`, `min_income_dict`,
`max_income_dict`); `none` means no release exists for that kind. -/
structure Releases where
  mean : Option Int
  median : Option Int
  min : Option Int
  max : Option Int
deriving DecidableEq

/-- Modelled from the spec: the policy knobs of `get_applications` of the
missing `reconstruction_module` (`lowest_allowable_count`, `use_medians`,
`use_mins`, `use_maxes`; mean is always on). -/
structure Config where
  lowest_allowable_count : Nat
  use_medians : Bool
  use_mins : Bool
  use_maxes : Bool

/-- Modelled from the spec: the ordering invariant
`x_0 <= x_1 <= ... <= x_{n-1}` asserted over a subgroup of size `n`. -/
def orderingApps (key : String) (n : Nat) : List App :=
  (List.range (n - 1)).map (fun i => App.le (varName key i) (varName key (i + 1)))

/-- Modelled from the spec: the mean application
`sum(x_0..x_{n-1}) == value * n` (integer form to avoid rounding). -/
def meanApps (key : String) (n : Nat) (rel : Releases) : List App :=
  match rel.mean with
  | some v => [App.eqSum ((List.range n).map (varName key)) (v * n)]
  | none => []

/-- Modelled from the spec: the median application — for odd `n`,
`x_{(n-1)/2} == value`; for even `n`, `x_{n/2-1} + x_{n/2} == 2*value`. -/
def medianApps (cfg : Config) (key : String) (n : Nat) (rel : Releases) : List App :=
  if cfg.use_medians then
    match rel.median with
    | some v =>
        if n % 2 = 1 then [App.eqVar (varName key ((n - 1) / 2)) v]
        else [App.eqPair (varName key (n / 2 - 1)) (varName key (n / 2)) (2 * v)]
    | none => []
  else []

/-- Modelled from the spec: the min application `x_0 == value`. -/
def minApps (cfg : Config) (key : String) (rel : Releases) : List App :=
  if cfg.use_mins then
    match rel.min with
    | some v => [App.eqVar (varName key 0) v]
    | none => []
  else []

/-- Modelled from the spec: the max application `x_{n-1} == value`. -/
def maxApps (cfg : Config) (key : String) (n : Nat) (rel : Releases) : List App :=
  if cfg.use_maxes then
    match rel.max with
    | some v => [App.eqVar (varName key (n - 1)) v]
    | none => []
  else []

/-- The statistic-derived applications of one subgroup (everything beyond a
bare count). -/
def statApps (cfg : Config) (key : String) (n : Nat) (rel : Releases) : List App :=
  meanApps key n rel ++ medianApps cfg key n rel ++ minApps cfg key rel ++
    maxApps cfg key n rel

/-- Modelled from the spec: the per-subgroup encoding performed by
`get_applications` of the missing `reconstruction_module`.  `members` is the
subgroup's row set in row-to-local-index order (local index = list
position, as in `elem_dict`); a subgroup below `lowest_allowable_count` is
suppressed entirely, and the ordering invariant is asserted exactly when
some statistic beyond a bare count is encoded. -/
def encodeSubgroup (cfg : Config) (key : String) (members : List Nat)
    (rel : Releases) : List App :=
  if members.length < cfg.lowest_allowable_count then []
  else if statApps cfg key members.length rel = [] then []
  else orderingApps key members.length ++ statApps cfg key members.length rel

/-- Modelled from the spec: `get_applications` of the missing
`reconstruction_module`, encoding every subgroup and concatenating the
resulting applications. -/
def get_applications (cfg : Config)
    (subgroups : List (String × List Nat × Releases)) : List App :=
  (subgroups.map (fun g => encodeSubgroup cfg g.1 g.2.1 g.2.2)).flatten

/-- Modelled from the spec: validity of the opaque solver engine's verdict
on a store (the Z3 `check`/`model` pair behind `check_solution` of the
missing `reconstruction_module`): a returned model satisfies the store, and
an absent model means the store is unsatisfiable. -/
def EngineValid (s : List App) : Option Assignment → Prop
  | some a => holdsAll a s = true
  | none => ¬ Satisfiable s

/-- Modelled from the spec: `check_solution` of the missing
`reconstruction_module` returns the solver's model when the store is
satisfiable and an absent (falsy) value on unsat; the opaque engine's
verdict is an explicit argument. -/
def check_solution (verdict : Option Assignment) : Option Assignment :=
  verdict

/-- Modelled from the spec: `reconstruct_data` of the missing
`reconstruction_module`.  `rowVars` gives, per original row, the name of
its symbolic variable (`none` for rows of fully suppressed subgroups);
with a model each named row is filled from it, and with an absent model
(unsat) the result is the empty/no-op reconstruction. -/
def reconstruct_data (model : Option Assignment)
    (rowVars : List (Option String)) : List (Option Int) :=
  match model with
  | none => rowVars.map (fun _ => none)
  | some a => rowVars.map (fun v => v.map a)

/-- The absolute differences between true and reconstructed sensitive
values, over the rows that carry a reconstructed value. -/
def reconDiffs (orig : List Int) (recon : List (Option Int)) : List Nat :=
  (orig.zip recon).filterMap (fun p => p.2.map (fun r => (p.1 - r).natAbs))

/-- Modelled from the spec: `compare_data` of the missing
`reconstruction_module` — over the rows that carry a reconstructed value,
count those whose absolute difference from the true sensitive value is
`== 0`, `<= 2000`, `<= 5000`. -/
def compare_data (orig : List Int) (recon : List (Option Int)) :
    Nat × Nat × Nat :=
  (((reconDiffs orig recon).filter (fun d => d == 0)).length,
   ((reconDiffs orig recon).filter (fun d => decide (d ≤ 2000))).length,
   ((reconDiffs orig recon).filter (fun d => decide (d ≤ 5000))).length)

/-- The notebook's background fact "some row of the subgroup equals `v`",
added as `solver_3.add(z3.Or([elem == v for elem in group_elems]))`. -/
def bgFact (key : String) (n : Nat) (v : Int) : App :=
  App.orEq ((List.range n).map (varName key)) v

/-- The configuration of the notebook's worked size-3 example
(min, median and mean all used, no suppression). -/
def cfg3 : Config := ⟨1, true, true, false⟩

/-- The releases of the notebook's worked size-3 example:
`min=0`, `median=50000`, `mean=60000`. -/
def rel3 : Releases := ⟨some 60000, some 50000, some 0, none⟩

/-- The constraint set of the notebook's worked size-3 example
(`z3.solve(i_1 <= i_2, i_2 <= i_3, i_1 == 0, i_2 == 50_000,
z3.Sum(i_1, i_2, i_3) == 180_000)`), as produced by the encoder. -/
def store3 : List App := encodeSubgroup cfg3 "g" [10, 11, 12] rel3

/-- The store of the first counterexample: a singleton subgroup whose only
release is a mean of `0`, encoded as `x_0 == 0` in sum form. -/
def storeC7 : List App :=
  encodeSubgroup ⟨1, false, false, false⟩ "g" [0] ⟨some 0, none, none, none⟩

lemma le_mem_orderingApps (key : String) {i n : Nat} (h : i + 1 < n) :
    App.le (varName key i) (varName key (i + 1)) ∈ orderingApps key n := by
  unfold orderingApps
  exact List.mem_map.mpr ⟨i, List.mem_range.mpr (by omega), rfl⟩

lemma medianApps_mem_statApps (cfg : Config) (key : String) (n : Nat)
    (rel : Releases) {a : App} (ha : a ∈ medianApps cfg key n rel) :
    a ∈ statApps cfg key n rel := by
  unfold statApps
  exact List.mem_append_left _ (List.mem_append_left _ (List.mem_append_right _ ha))

lemma statApps_mem_encodeSubgroup (cfg : Config) (key : String)
    (ms : List Nat) (rel : Releases) {a : App}
    (ha : a ∈ statApps cfg key ms.length rel)
    (ht : cfg.lowest_allowable_count ≤ ms.length) :
    a ∈ encodeSubgroup cfg key ms rel := by
  unfold encodeSubgroup
  rw [if_neg (by omega : ¬ ms.length < cfg.lowest_allowable_count)]
  have hne : ¬ statApps cfg key ms.length rel = [] := by
    intro h0
    rw [h0] at ha
    cases ha
  rw [if_neg hne]
  exact List.mem_append_right _ ha

/-- C1: whenever the encoder emits any statistic-derived application for a
subgroup (anything beyond a bare count), it also asserts the full ordering
invariant `x_0 <= x_1 <= ... <= x_{n-1}` over that subgroup; and permuting
the row-to-local-index mapping of the subgroup's members yields an
equisatisfiable constraint set. -/
theorem c1_ordering_invariant (cfg : Config) (key : String) (ms : List Nat)
    (rel : Releases) :
    ((∃ app ∈ encodeSubgroup cfg key ms rel, app.isOrdering = false) →
      ∀ i, i + 1 < ms.length →
        App.le (varName key i) (varName key (i + 1)) ∈ encodeSubgroup cfg key ms rel)
    ∧ ∀ ms' : List Nat, ms.Perm ms' →
        (Satisfiable (encodeSubgroup cfg key ms rel) ↔
          Satisfiable (encodeSubgroup cfg key ms' rel)) := by
  constructor
  · intro hex i hi
    obtain ⟨app, happ, _⟩ := hex
    unfold encodeSubgroup at happ ⊢
    split at happ
    · cases happ
    · split at happ
      · cases happ
      · rename_i h1 h2
        rw [if_neg h1, if_neg h2]
        exact List.mem_append_left _ (le_mem_orderingApps key hi)
  · intro ms' hp
    have hlen : ms.length = ms'.length := hp.length_eq
    unfold encodeSubgroup
    rw [hlen]

/-- C1 witness: a concrete subgroup of size 3 with a released mean, where
the statistic application forces the ordering constraints. -/
theorem c1_ordering_invariant_witness :
    App.le (varName "g" 0) (varName "g" 1) ∈
      encodeSubgroup ⟨1, true, false, false⟩ "g" [7, 8, 9]
        ⟨some 1, none, none, none⟩ :=
  (c1_ordering_invariant ⟨1, true, false, false⟩ "g" [7, 8, 9]
      ⟨some 1, none, none, none⟩).1
    ⟨App.eqSum ["g_0", "g_1", "g_2"] 3, by decide, by decide⟩ 0 (by decide)

/-- C2: for a subgroup of size `n` passing the suppression threshold, with
medians enabled and a released median `v`, the encoder's median encoding is
exactly `x_{(n-1)/2} == v` for odd `n` and `x_{n/2-1} + x_{n/2} == 2*v` for
even `n` (integer arithmetic only), and it appears in the subgroup's
application list. -/
theorem c2_median_encoding (cfg : Config) (key : String) (ms : List Nat)
    (rel : Releases) (v : Int) (hm : cfg.use_medians = true)
    (hv : rel.median = some v)
    (ht : cfg.lowest_allowable_count ≤ ms.length) :
    medianApps cfg key ms.length rel =
      (if ms.length % 2 = 1 then [App.eqVar (varName key ((ms.length - 1) / 2)) v]
       else [App.eqPair (varName key (ms.length / 2 - 1))
              (varName key (ms.length / 2)) (2 * v)])
    ∧ ∀ a ∈ medianApps cfg key ms.length rel, a ∈ encodeSubgroup cfg key ms rel := by
  constructor
  · simp [medianApps, hm, hv]
  · intro a ha
    exact statApps_mem_encodeSubgroup cfg key ms rel
      (medianApps_mem_statApps cfg key ms.length rel ha) ht

/-- C2 witness: a subgroup of size 3 (odd) with released median 50000 is
encoded as `x_1 == 50000`, present in the subgroup's applications. -/
theorem c2_median_encoding_witness :
    medianApps ⟨1, true, false, false⟩ "g" 3 ⟨none, some 50000, none, none⟩ =
      [App.eqVar (varName "g" 1) 50000]
    ∧ App.eqVar (varName "g" 1) 50000 ∈
        encodeSubgroup ⟨1, true, false, false⟩ "g" [1, 2, 3]
          ⟨none, some 50000, none, none⟩ := by
  have h := c2_median_encoding ⟨1, true, false, false⟩ "g" [1, 2, 3]
    ⟨none, some 50000, none, none⟩ 50000 rfl rfl (by decide)
  exact ⟨by simpa using h.1, h.2 _ (by decide)⟩

/-- C3: the notebook's worked size-3 example (`min=0`, `median=50000`,
`mean=60000`) is satisfiable and has the unique solution
`{0, 50000, 130000}`. -/
theorem c3_unique_solution :
    Satisfiable store3 ∧
    ∀ a : Assignment, holdsAll a store3 = true →
      a (varName "g" 0) = 0 ∧ a (varName "g" 1) = 50000 ∧
        a (varName "g" 2) = 130000 := by
  constructor
  · exact ⟨fun s => if s = "g_0" then 0 else if s = "g_1" then 50000 else 130000,
      by decide⟩
  · intro a h
    have hs : store3 = [App.le "g_0" "g_1", App.le "g_1" "g_2",
        App.eqSum ["g_0", "g_1", "g_2"] 180000,
        App.eqVar "g_1" 50000, App.eqVar "g_0" 0] := by decide
    rw [hs] at h
    simp [holdsAll, App.eval] at h
    obtain ⟨h1, h2, h3, h4, h5⟩ := h
    rw [show varName "g" 0 = "g_0" from rfl, show varName "g" 1 = "g_1" from rfl,
      show varName "g" 2 = "g_2" from rfl]
    refine ⟨?_, ?_, ?_⟩ <;> omega

/-- C3 witness: the concrete assignment `{0, 50000, 130000}` satisfies the
store, and the uniqueness theorem pins its third value to 130000. -/
theorem c3_unique_solution_witness :
    (fun s => if s = "g_0" then (0 : Int) else if s = "g_1" then 50000
      else 130000) (varName "g" 2) = 130000 :=
  (c3_unique_solution.2
    (fun s => if s = "g_0" then 0 else if s = "g_1" then 50000 else 130000)
    (by decide)).2.2

/-- C4: deduplicating the application list (the notebook's
`applications = list(set(applications))`) never changes satisfiability, and
encoding the same subgroup twice then deduplicating yields the same
application set as encoding it once. -/
theorem c4_dedup_idempotent :
    (∀ (cfg : Config) (key : String) (ms : List Nat) (rel : Releases),
      (encodeSubgroup cfg key ms rel ++ encodeSubgroup cfg key ms rel).toFinset =
        (encodeSubgroup cfg key ms rel).toFinset)
    ∧ ∀ s : List App, (Satisfiable s.dedup ↔ Satisfiable s) := by
  constructor
  · intro cfg key ms rel
    rw [List.toFinset_append, Finset.union_self]
  · intro s
    have hm : ∀ a : Assignment, holdsAll a s.dedup = true ↔ holdsAll a s = true := by
      intro a
      simp [holdsAll, List.all_eq_true, List.mem_dedup]
    exact ⟨fun ⟨a, ha⟩ => ⟨a, (hm a).1 ha⟩, fun ⟨a, ha⟩ => ⟨a, (hm a).2 ha⟩⟩

lemma encodeSubgroup_suppressed (t : Nat) (um umin umax : Bool) (key : String)
    (ms : List Nat) (rel : Releases) (h : ms.length < t) :
    encodeSubgroup ⟨t, um, umin, umax⟩ key ms rel = [] := by
  unfold encodeSubgroup
  rw [if_pos h]

lemma encodeSubgroup_threshold_indep (t1 t2 : Nat) (um umin umax : Bool)
    (key : String) (ms : List Nat) (rel : Releases)
    (h1 : t1 ≤ ms.length) (h2 : t2 ≤ ms.length) :
    encodeSubgroup ⟨t2, um, umin, umax⟩ key ms rel =
      encodeSubgroup ⟨t1, um, umin, umax⟩ key ms rel := by
  unfold encodeSubgroup
  rw [if_neg (by omega : ¬ ms.length < t2), if_neg (by omega : ¬ ms.length < t1)]
  rfl

/-- C5: a subgroup's releases are withheld exactly when its size is below
`lowest_allowable_count` (below it the encoding is empty, at or above it the
encoding does not depend on the threshold), so decreasing the threshold can
only add applications: the application set at a lower threshold is a
superset of the set at a higher threshold. -/
theorem c5_suppression_monotone (t1 t2 : Nat) (um umin umax : Bool)
    (subs : List (String × List Nat × Releases)) (h : t1 ≤ t2) :
    (∀ app, app ∈ get_applications ⟨t2, um, umin, umax⟩ subs →
      app ∈ get_applications ⟨t1, um, umin, umax⟩ subs)
    ∧ (∀ (key : String) (ms : List Nat) (rel : Releases), ms.length < t2 →
        encodeSubgroup ⟨t2, um, umin, umax⟩ key ms rel = [])
    ∧ (∀ (key : String) (ms : List Nat) (rel : Releases), t2 ≤ ms.length →
        encodeSubgroup ⟨t2, um, umin, umax⟩ key ms rel =
          encodeSubgroup ⟨t1, um, umin, umax⟩ key ms rel) := by
  refine ⟨?_, fun key ms rel hlt => encodeSubgroup_suppressed t2 um umin umax key ms rel hlt,
    fun key ms rel hle =>
      encodeSubgroup_threshold_indep t1 t2 um umin umax key ms rel (by omega) hle⟩
  intro app happ
  unfold get_applications at happ ⊢
  rw [List.mem_flatten] at happ ⊢
  obtain ⟨l, hl, hal⟩ := happ
  rw [List.mem_map] at hl
  obtain ⟨g, hg, rfl⟩ := hl
  by_cases hlt : g.2.1.length < t2
  · rw [encodeSubgroup_suppressed t2 um umin umax g.1 g.2.1 g.2.2 hlt] at hal
    cases hal
  · refine ⟨encodeSubgroup ⟨t1, um, umin, umax⟩ g.1 g.2.1 g.2.2,
      List.mem_map.mpr ⟨g, hg, rfl⟩, ?_⟩
    rw [← encodeSubgroup_threshold_indep t1 t2 um umin umax g.1 g.2.1 g.2.2
      (by omega) (by omega)]
    exact hal

/-- C5 witness: a singleton subgroup is suppressed at threshold 2 but not at
threshold 1. -/
theorem c5_suppression_monotone_witness :
    encodeSubgroup ⟨2, false, false, false⟩ "g" [0] ⟨some 5, none, none, none⟩ = [] :=
  (c5_suppression_monotone 1 2 false false false
      [("g", [0], ⟨some 5, none, none, none⟩)] (by decide)).2.1
    "g" [0] ⟨some 5, none, none, none⟩ (by decide)

/-- C6: an unsatisfiable store is a normal reported outcome: the solver
adapter returns an absent model (a value, not an exception), reconstruction
of an absent model is the no-op result with every row unfilled, and scoring
it yields the zero triple. -/
theorem c6_unsat_is_normal (s : List App) (r : Option Assignment)
    (rowVars : List (Option String)) (orig : List Int)
    (hv : EngineValid s r) (hun : ¬ Satisfiable s) :
    check_solution r = none
    ∧ reconstruct_data (check_solution r) rowVars = rowVars.map (fun _ => none)
    ∧ compare_data orig (reconstruct_data (check_solution r) rowVars) = (0, 0, 0) := by
  have hr : r = none := by
    cases r with
    | none => rfl
    | some a => exact absurd ⟨a, hv⟩ hun
  subst hr
  refine ⟨rfl, rfl, ?_⟩
  have hdiffs : reconDiffs orig (reconstruct_data (check_solution none) rowVars) = [] := by
    unfold reconDiffs reconstruct_data check_solution
    rw [List.filterMap_eq_nil_iff]
    intro p hp
    have h2 := (List.of_mem_zip hp).2
    rw [List.mem_map] at h2
    obtain ⟨x, _, hx⟩ := h2
    show p.2.map _ = none
    rw [← hx]
    rfl
  unfold compare_data
  rw [hdiffs]
  rfl

/-- C6 witness: a concrete contradictory store (`x == 0` and `x == 1`) with
the engine reporting unsat flows through the pipeline as an absent model,
a no-op reconstruction, and a zero score. -/
theorem c6_unsat_is_normal_witness :
    check_solution (none : Option Assignment) = none
    ∧ reconstruct_data (check_solution (none : Option Assignment)) [some "x"] =
        [some "x"].map (fun _ => none)
    ∧ compare_data [0] (reconstruct_data (check_solution (none : Option Assignment))
        [some "x"]) = (0, 0, 0) := by
  have hun : ¬ Satisfiable [App.eqVar "x" 0, App.eqVar "x" 1] := by
    rintro ⟨a, ha⟩
    simp [holdsAll, App.eval] at ha
    omega
  exact c6_unsat_is_normal [App.eqVar "x" 0, App.eqVar "x" 1] none [some "x"] [0]
    hun hun

lemma bgFact_eval (a : Assignment) (key : String) (n : Nat) (v : Int) :
    App.eval a (bgFact key n v) = true ↔ ∃ i, i < n ∧ a (varName key i) = v := by
  simp [bgFact, App.eval, List.any_eq_true, List.mem_map, List.mem_range]

/-- C7 counterexample: adding the background fact "some row of G equals
95000" to a satisfiable store can make it unsatisfiable, refuting the
unconditional preservation claim — here the store pins G's only row to 0. -/
theorem c7_counterexample :
    Satisfiable storeC7 ∧ ¬ Satisfiable (storeC7 ++ [bgFact "g" 1 95000]) := by
  constructor
  · exact ⟨fun _ => 0, by decide⟩
  · rintro ⟨a, ha⟩
    have hs : storeC7 ++ [bgFact "g" 1 95000] =
        [App.eqSum ["g_0"] 0, App.orEq ["g_0"] 95000] := by decide
    rw [hs] at ha
    simp [holdsAll, App.eval] at ha
    omega

/-- C7 (amended): if the store is satisfied by an assignment giving 95000 to
at least one of G's rows (as when the background fact is true of the
underlying data), then adding the disjunctive background fact preserves
satisfiability; and unconditionally, every model of the augmented store
assigns 95000 to at least one row of G. -/
theorem c7_background_fact (s : List App) (key : String) (n : Nat)
    (a : Assignment) (ha : holdsAll a s = true)
    (hwit : ∃ i, i < n ∧ a (varName key i) = 95000) :
    Satisfiable (s ++ [bgFact key n 95000])
    ∧ ∀ b : Assignment, holdsAll b (s ++ [bgFact key n 95000]) = true →
        ∃ i, i < n ∧ b (varName key i) = 95000 := by
  constructor
  · refine ⟨a, ?_⟩
    simp only [holdsAll, List.all_append] at ha ⊢
    rw [ha]
    simp only [List.all_cons, List.all_nil, Bool.and_true, Bool.true_and]
    exact (bgFact_eval a key n 95000).mpr hwit
  · intro b hb
    simp only [holdsAll, List.all_append, Bool.and_eq_true] at hb
    have := hb.2
    simp only [List.all_cons, List.all_nil, Bool.and_true] at this
    exact (bgFact_eval b key n 95000).mp this

/-- C7 witness: a store that pins G's row to 95000, augmented with the
background fact, stays satisfiable. -/
theorem c7_background_fact_witness :
    Satisfiable ([App.eqVar "g_0" 95000] ++ [bgFact "g" 1 95000]) :=
  (c7_background_fact [App.eqVar "g_0" 95000] "g" 1 (fun _ => 95000)
    (by decide) ⟨0, by decide, by decide⟩).1

/-- C8: the scoring triple is cumulative — over the rows with a
reconstructed value, the count of exact matches never exceeds the count
within 2000, which never exceeds the count within 5000. -/
theorem c8_compare_cumulative (orig : List Int) (recon : List (Option Int)) :
    (compare_data orig recon).1 ≤ (compare_data orig recon).2.1
    ∧ (compare_data orig recon).2.1 ≤ (compare_data orig recon).2.2 := by
  unfold compare_data
  constructor
  · refine (List.monotone_filter_right (reconDiffs orig recon) ?_).length_le
    intro d hd
    simp only [beq_iff_eq] at hd
    simp only [decide_eq_true_eq]
    omega
  · refine (List.monotone_filter_right (reconDiffs orig recon) ?_).length_le
    intro d hd
    simp only [decide_eq_true_eq] at hd ⊢
    omega

/-- C9: under the engine-correctness contract, the value returned by
`check_solution` is truthy (a present model) exactly when the constraint
store is satisfiable. -/
theorem c9_truthy_iff_sat (s : List App) (r : Option Assignment)
    (hv : EngineValid s r) :
    ((check_solution r).isSome = true ↔ Satisfiable s) := by
  cases r with
  | some a =>
    simp only [check_solution, Option.isSome_some, true_iff]
    exact ⟨a, hv⟩
  | none =>
    simp only [check_solution, Option.isSome_none, Bool.false_eq_true, false_iff]
    exact fun hsat => (hv : ¬ Satisfiable s) hsat

/-- C9 witness: a one-constraint store with a correct engine reply yields a
truthy model, and the store is indeed satisfiable. -/
theorem c9_truthy_iff_sat_witness :
    ((check_solution (some (fun _ => (7 : Int)))).isSome = true ↔
      Satisfiable [App.eqVar "x" 7]) :=
  c9_truthy_iff_sat [App.eqVar "x" 7] (some (fun _ => 7)) (by exact rfl)

/-- C10: a symbolic row variable's identity is its canonical name string —
the name the background-knowledge cell constructs coincides with the
encoder's name for the same subgroup and local index, so an ad hoc
constraint added on the reconstructed name binds the already-encoded row:
any assignment satisfying the augmented store pins the encoder's variable. -/
theorem c10_variable_identity (key : String) (i : Nat) (v : Int)
    (s : List App) (a : Assignment)
    (h : holdsAll a (s ++ [App.eqVar (backgroundVar key i) v]) = true) :
    backgroundVar key i = varName key i ∧ a (varName key i) = v := by
  refine ⟨rfl, ?_⟩
  simp only [holdsAll, List.all_append, Bool.and_eq_true, List.all_cons,
    List.all_nil, Bool.and_true, App.eval, beq_iff_eq] at h
  exact h.2

/-- C10 witness: with an empty bulk store, constraining the reconstructed
name `g_0` to 5 pins the encoder's variable `varName "g" 0` to 5. -/
theorem c10_variable_identity_witness :
    backgroundVar "g" 0 = varName "g" 0
    ∧ (fun _ => (5 : Int)) (varName "g" 0) = 5 :=
  c10_variable_identity "g" 0 5 [] (fun _ => 5) (by decide)
